import Mathlib

/-!
# HRP-Animals CMS core: document store, validator, backup manager

A shallow embedding of the JSON-document data store of the HRP-Animals CMS
(`cms/services/json_handler.py`, `cms/services/validator.py`,
`cms/routes/item_routes.py`), together with theorems settling the claims
about it.  Python dictionaries/lists of JSON data are modelled by the
inductive type `Val`; the filesystem state seen by the document handler is
modelled by the `Store` structure (the live document file plus the backup
directory); Python-level aliasing in the duplicate route is modelled by an
explicit heap of objects.
-/

namespace HRP

/-- JSON-like values as handled by Python's `json` module: the payload of the
document file.  Numbers are modelled by `Rat` (Python ints/floats), and
booleans are kept separate from numbers. -/
inductive Val where
  | str (s : String)
  | num (q : Rat)
  | bool (b : Bool)
  | null
  | arr (xs : List Val)
  | obj (fields : List (String × Val))
  deriving Repr

mutual

/-- Structural (Python `==`) equality on `Val`. -/
def Val.beq : Val → Val → Bool
  | .str a, .str b => a == b
  | .num a, .num b => a == b
  | .bool a, .bool b => a == b
  | .null, .null => true
  | .arr xs, .arr ys => Val.beqL xs ys
  | .obj xs, .obj ys => Val.beqO xs ys
  | _, _ => false

/-- Structural equality on lists of `Val`s. -/
def Val.beqL : List Val → List Val → Bool
  | [], [] => true
  | x :: xs, y :: ys => Val.beq x y && Val.beqL xs ys
  | _, _ => false

/-- Structural equality on association lists of `Val`s. -/
def Val.beqO : List (String × Val) → List (String × Val) → Bool
  | [], [] => true
  | (k, v) :: xs, (k', v') :: ys => k == k' && Val.beq v v' && Val.beqO xs ys
  | _, _ => false

end

instance : BEq Val := ⟨Val.beq⟩

theorem Val.eq_of_beq_sized :
    ∀ n : Nat, (∀ a b : Val, sizeOf a ≤ n → Val.beq a b = true → a = b) := by
  intro n
  induction n with
  | zero =>
    intro a b ha
    exfalso
    cases a <;> simp_all
  | succ n ih =>
    have keyL : ∀ xs ys : List Val, sizeOf xs ≤ n → Val.beqL xs ys = true → xs = ys := by
      intro xs
      induction xs with
      | nil =>
        intro ys _ h
        cases ys with
        | nil => rfl
        | cons y tl' => exact Bool.noConfusion h
      | cons x tl ihl =>
        intro ys hs h
        cases ys with
        | nil => exact Bool.noConfusion h
        | cons y tl' =>
          simp only [Val.beqL, Bool.and_eq_true] at h
          simp only [List.cons.sizeOf_spec] at hs
          have hx : sizeOf x ≤ n := by omega
          have htl : sizeOf tl ≤ n := by omega
          exact List.cons_eq_cons.mpr ⟨ih x y hx h.1, ihl tl' htl h.2⟩
    have keyO : ∀ xs ys : List (String × Val), sizeOf xs ≤ n →
        Val.beqO xs ys = true → xs = ys := by
      intro xs
      induction xs with
      | nil =>
        intro ys _ h
        cases ys with
        | nil => rfl
        | cons y tl' => exact Bool.noConfusion h
      | cons x tl ihl =>
        obtain ⟨k, v⟩ := x
        intro ys hs h
        cases ys with
        | nil => exact Bool.noConfusion h
        | cons y tl' =>
          obtain ⟨k', v'⟩ := y
          simp only [Val.beqO, Bool.and_eq_true, beq_iff_eq] at h
          simp only [List.cons.sizeOf_spec, Prod.mk.sizeOf_spec] at hs
          have hx : sizeOf v ≤ n := by omega
          have htl : sizeOf tl ≤ n := by omega
          exact List.cons_eq_cons.mpr
            ⟨by rw [h.1.1, ih v v' hx h.1.2], ihl tl' htl h.2⟩
    intro a b ha h
    cases a <;> cases b <;> simp only [Val.beq] at h <;> try exact Bool.noConfusion h
    case str.str => simp_all
    case num.num => simp_all
    case bool.bool => simp_all
    case null.null => rfl
    case arr.arr xs ys =>
      simp only [Val.arr.sizeOf_spec] at ha
      exact congrArg Val.arr (keyL xs ys (by omega) h)
    case obj.obj xs ys =>
      simp only [Val.obj.sizeOf_spec] at ha
      exact congrArg Val.obj (keyO xs ys (by omega) h)

theorem Val.eq_of_beq {a b : Val} (h : Val.beq a b = true) : a = b :=
  Val.eq_of_beq_sized (sizeOf a) a b (Nat.le_refl _) h

theorem Val.beq_refl_sized :
    ∀ n : Nat, (∀ a : Val, sizeOf a ≤ n → Val.beq a a = true) := by
  intro n
  induction n with
  | zero =>
    intro a ha
    exfalso
    cases a <;> simp_all
  | succ n ih =>
    have keyL : ∀ xs : List Val, sizeOf xs ≤ n → Val.beqL xs xs = true := by
      intro xs
      induction xs with
      | nil => intro _; rfl
      | cons x tl ihl =>
        intro hs
        simp only [List.cons.sizeOf_spec] at hs
        simp only [Val.beqL, Bool.and_eq_true]
        exact ⟨ih x (by omega), ihl (by omega)⟩
    have keyO : ∀ xs : List (String × Val), sizeOf xs ≤ n → Val.beqO xs xs = true := by
      intro xs
      induction xs with
      | nil => intro _; rfl
      | cons x tl ihl =>
        obtain ⟨k, v⟩ := x
        intro hs
        simp only [List.cons.sizeOf_spec, Prod.mk.sizeOf_spec] at hs
        simp only [Val.beqO, Bool.and_eq_true, beq_self_eq_true, true_and]
        exact ⟨ih v (by omega), ihl (by omega)⟩
    intro a ha
    cases a <;> simp only [Val.beq]
    case str => simp
    case num => simp
    case bool => simp
    case arr xs =>
      simp only [Val.arr.sizeOf_spec] at ha
      exact keyL xs (by omega)
    case obj xs =>
      simp only [Val.obj.sizeOf_spec] at ha
      exact keyO xs (by omega)

theorem Val.beq_refl (a : Val) : Val.beq a a = true :=
  Val.beq_refl_sized (sizeOf a) a (Nat.le_refl _)

instance : LawfulBEq Val where
  eq_of_beq := Val.eq_of_beq
  rfl := Val.beq_refl _

instance : DecidableEq Val := fun a b =>
  decidable_of_iff (Val.beq a b = true) ⟨Val.eq_of_beq, fun h => h ▸ Val.beq_refl a⟩

instance {ε α : Type} [DecidableEq ε] [DecidableEq α] : DecidableEq (Except ε α) :=
  fun a b =>
    match a, b with
    | .ok x, .ok y => decidable_of_iff (x = y) (by simp)
    | .error e, .error f => decidable_of_iff (e = f) (by simp)
    | .ok _, .error _ => isFalse (by simp)
    | .error _, .ok _ => isFalse (by simp)

/-- Key lookup in a Python dict modelled as an association list
(`item['k']` / `'k' in item`). -/
def oget? (o : List (String × Val)) (k : String) : Option Val :=
  (o.find? (fun p => p.1 == k)).map Prod.snd

/-- `'k' in item` for a Python dict. -/
def hasKey (o : List (String × Val)) (k : String) : Bool :=
  (oget? o k).isSome

/-- Python `isinstance(x, (int, float))` plus the numeric value: booleans are
`int` subclasses in Python, so they count as numbers (`True == 1`). -/
def Val.asNum? : Val → Option Rat
  | .num q => some q
  | .bool b => some (if b then 1 else 0)
  | _ => none

/-! ## Path resolver

Filesystem paths are modelled as lists of segments.  `Config.BASE_DIR` is the
project root; `full_path = Config.BASE_DIR / relative` followed by the OS-level
resolution that `Path.exists` performs is modelled by appending the split
segments and normalising `..`/`.`/empty segments. -/

/-- `s.startswith(pre)`: comparison by characters, as Python does. -/
def strStartsWith (s pre : String) : Bool := pre.data.isPrefixOf s.data

/-- `s.endswith(suf)`. -/
def strEndsWith (s suf : String) : Bool := suf.data.isSuffixOf s.data

/-- `s[n:]`: drop the first `n` characters. -/
def strDrop (s : String) (n : Nat) : String := String.mk (s.data.drop n)

/-- Split a character stream on `/` (`cur` holds the pending segment,
reversed). -/
def splitSegsAux : List Char → List Char → List String
  | [], cur => [String.mk cur.reverse]
  | c :: cs, cur =>
    if c = '/' then String.mk cur.reverse :: splitSegsAux cs []
    else splitSegsAux cs (c :: cur)

/-- Split a path string on `/`. -/
def splitPath (s : String) : List String := splitSegsAux s.data []

/-- Lexical normalisation of a segment list, as the OS resolves a path:
`..` pops, `.` and empty segments vanish. -/
def normSegs (segs : List String) : List String :=
  segs.foldl
    (fun acc s =>
      if s = ".." then acc.dropLast
      else if s = "." || s = "" then acc
      else acc ++ [s])
    []

/-- `Config.BASE_DIR / path[6:]`, resolved: the absolute location that
`Validator._validate_asset_path` (and `FileHandler.delete_file`) derive from a
`'../../'`-prefixed logical asset path. -/
def resolveLogical (base : List String) (path : String) : List String :=
  normSegs (base ++ splitPath (strDrop path 6))

/-- Whether a resolved absolute path lies within the project root. -/
def withinRoot (base resolved : List String) : Bool :=
  base.isPrefixOf resolved

namespace Validator

/-- `Validator._validate_asset_path(path, field_name)`.  `fs` is the
filesystem-existence oracle over resolved paths and `base` is
`Config.BASE_DIR`. -/
def _validate_asset_path (fs : List String → Bool) (base : List String)
    (v : Val) (field : String) : List String :=
  match v with
  | .str path =>
    if path = "" then []
    else if !(strStartsWith path "../../") then
      ["'" ++ field ++ "' must be a relative path starting with '../../'"]
    else if fs (resolveLogical base path) then []
    else ["'" ++ field ++ "' path does not exist: " ++ path]
  | _ => ["'" ++ field ++ "' must be a string"]

/-- The required top-level fields of an item, in source order. -/
def requiredItemFields : List String :=
  ["id", "name", "scientificName", "description", "badgeDescription",
   "location", "radiusMeters", "icon", "model", "ping", "badge"]

/-- The `Missing required field:` errors of `validate_item`. -/
def missingFieldErrors (o : List (String × Val)) (fields : List String) : List String :=
  (fields.filter (fun f => !hasKey o f)).map (fun f => "Missing required field: " ++ f)

/-- `not isinstance(x, str) or not x` for a required string field. -/
def nonEmptyStrErrs (o : List (String × Val)) (k : String) : List String :=
  match oget? o k with
  | some (.str s) => if s = "" then ["'" ++ k ++ "' must be a non-empty string"] else []
  | _ => ["'" ++ k ++ "' must be a non-empty string"]

/-- A numeric value within a closed range (`isinstance((int, float))` plus
the bound check). -/
def numInRange (v : Option Val) (lo hi : Rat) : Bool :=
  match v with
  | some w =>
    match w.asNum? with
    | some q => decide (lo ≤ q) && decide (q ≤ hi)
    | none => false
  | none => false

/-- The location block of `validate_item`. -/
def locationErrs (o : List (String × Val)) : List String :=
  match oget? o "location" with
  | some (.obj loc) =>
    if hasKey loc "lat" && hasKey loc "lng" then
      (if numInRange (oget? loc "lat") (-90) 90 then []
       else ["'location.lat' must be between -90 and 90"]) ++
      (if numInRange (oget? loc "lng") (-180) 180 then []
       else ["'location.lng' must be between -180 and 180"])
    else ["'location' must have 'lat' and 'lng'"]
  | _ => ["'location' must be an object"]

/-- The radius block of `validate_item`. -/
def radiusErrs (o : List (String × Val)) : List String :=
  match oget? o "radiusMeters" with
  | some w =>
    match w.asNum? with
    | some q => if decide (0 < q) then [] else ["'radiusMeters' must be a positive number"]
    | none => ["'radiusMeters' must be a positive number"]
  | none => ["'radiusMeters' must be a positive number"]

/-- The icon block of `validate_item`. -/
def iconErrs (fs : List String → Bool) (base : List String)
    (o : List (String × Val)) : List String :=
  match oget? o "icon" with
  | some (.obj ic) =>
    if hasKey ic "shadow" && hasKey ic "found" then
      _validate_asset_path fs base ((oget? ic "shadow").getD .null) "icon.shadow" ++
      _validate_asset_path fs base ((oget? ic "found").getD .null) "icon.found"
    else ["'icon' must have 'shadow' and 'found'"]
  | _ => ["'icon' must be an object"]

/-- The model block of `validate_item`. -/
def modelErrs (fs : List String → Bool) (base : List String)
    (o : List (String × Val)) : List String :=
  match oget? o "model" with
  | some (.obj m) =>
    (if hasKey m "url" then
       _validate_asset_path fs base ((oget? m "url").getD .null) "model.url"
     else ["'model' must have 'url'"]) ++
    (if hasKey m "usdz" then
       _validate_asset_path fs base ((oget? m "usdz").getD .null) "model.usdz"
     else [])
  | _ => ["'model' must be an object"]

/-- The embedded-badge block of `validate_item`. -/
def badgeFieldErrs (fs : List String → Bool) (base : List String)
    (o : List (String × Val)) : List String :=
  match oget? o "badge" with
  | some (.obj b) =>
    (if hasKey b "id" then [] else ["'badge' must have 'id'"]) ++
    (if hasKey b "name" then [] else ["'badge' must have 'name'"]) ++
    (if hasKey b "icon" then
       _validate_asset_path fs base ((oget? b "icon").getD .null) "badge.icon"
     else [])
  | _ => ["'badge' must be an object"]

/-- `Validator.validate_item(item)`: transcribed from the source's sequential
`errors` accumulation, with the early return on missing required fields. -/
def validate_item (fs : List String → Bool) (base : List String)
    (item : List (String × Val)) : List String :=
  let errors :=
    requiredItemFields.foldl
      (fun es f => if hasKey item f then es else es ++ ["Missing required field: " ++ f]) []
  if !errors.isEmpty then errors
  else
    let errors := errors ++ nonEmptyStrErrs item "id"
    let errors := errors ++ nonEmptyStrErrs item "name"
    let errors := errors ++ locationErrs item
    let errors := errors ++ radiusErrs item
    let errors := errors ++ iconErrs fs base item
    let errors := errors ++ modelErrs fs base item
    let errors := errors ++ badgeFieldErrs fs base item
    errors

/-- `Validator.validate_badge(badge)`. -/
def validate_badge (fs : List String → Bool) (base : List String)
    (badge : List (String × Val)) : List String :=
  let errors :=
    (if hasKey badge "id" then [] else ["Missing required field: id"]) ++
    (if hasKey badge "name" then [] else ["Missing required field: name"]) ++
    (if hasKey badge "description" then [] else ["Missing required field: description"])
  if !errors.isEmpty then errors
  else
    let errors := errors ++ nonEmptyStrErrs badge "id"
    let errors := errors ++
      (if hasKey badge "icon" then
         _validate_asset_path fs base ((oget? badge "icon").getD .null) "icon"
       else [])
    errors

end Validator

mutual

/-- A JSON rendering of a `Val`: the model of `json.dump`'s serialized bytes
(the exact whitespace of `indent=2` is irrelevant to every claim; what matters
is that serialization is a function of the document). -/
def Val.render : Val → String
  | .str s => "\"" ++ s ++ "\""
  | .num q => toString q
  | .bool b => if b then "true" else "false"
  | .null => "null"
  | .arr xs => "[" ++ Val.renderL xs ++ "]"
  | .obj fs => "\x7b" ++ Val.renderO fs ++ "\x7d"

/-- Render a list of values, comma-separated. -/
def Val.renderL : List Val → String
  | [] => ""
  | [x] => Val.render x
  | x :: xs => Val.render x ++ ", " ++ Val.renderL xs

/-- Render object fields, comma-separated. -/
def Val.renderO : List (String × Val) → String
  | [] => ""
  | [(k, v)] => "\"" ++ k ++ "\": " ++ Val.render v
  | (k, v) :: fs => "\"" ++ k ++ "\": " ++ Val.render v ++ ", " ++ Val.renderO fs

end

namespace JSONHandler

/-- The id-uniqueness loop of `_validate_structure` over one collection:
walks the list with its index and the set of ids seen so far. -/
def checkIdList (label dupLabel : String) (i : Nat) (seen : List Val) :
    List Val → Except String Unit
  | [] => .ok ()
  | x :: rest =>
    match x with
    | .obj fields =>
      match oget? fields "id" with
      | some idv =>
        if seen.contains idv then .error (dupLabel ++ Val.render idv)
        else checkIdList label dupLabel (i + 1) (seen ++ [idv]) rest
      | none => .error (label ++ " at index " ++ toString i ++ " missing 'id'")
    | _ => .error (label ++ " at index " ++ toString i ++ " must be an object")

/-- `JSONHandler._validate_structure(data)`: raises `ValueError` (modelled as
`Except.error` with the message) on the first violation. -/
def validate_structure (data : Val) : Except String Unit :=
  match data with
  | .obj fields =>
    if !hasKey fields "items" then .error "Missing 'items' key"
    else if !hasKey fields "gameBadges" then .error "Missing 'gameBadges' key"
    else
      match (oget? fields "items").getD .null with
      | .arr items =>
        match (oget? fields "gameBadges").getD .null with
        | .arr badges =>
          match checkIdList "Item" "Duplicate item ID: " 0 [] items with
          | .error e => .error e
          | .ok () => checkIdList "Game badge" "Duplicate game badge ID: " 0 [] badges
        | _ => .error "'gameBadges' must be a list"
      | _ => .error "'items' must be a list"
  | _ => .error "Root must be an object"

end JSONHandler

/-- Whether a list of `Val`s has no duplicate (Python `==`) element. -/
def dupFree : List Val → Bool
  | [] => true
  | x :: xs => !xs.contains x && dupFree xs

/-- Whether a collection entry is an object carrying an `id` key. -/
def isObjWithId : Val → Bool
  | .obj f => hasKey f "id"
  | _ => false

/-- The `id` values of a collection's object entries, in order. -/
def entryIds (xs : List Val) : List Val :=
  xs.filterMap (fun x => match x with | .obj f => oget? f "id" | _ => none)

/-- The structural invariant in the words of the specification (the
refinement side of claim C2): root is an object, `items` and `gameBadges`
keys present and lists, every element has an `id`, and no duplicate id
within `items` nor within `gameBadges`. -/
def claimedDocInvariant (data : Val) : Bool :=
  match data with
  | .obj fields =>
    match oget? fields "items", oget? fields "gameBadges" with
    | some (.arr items), some (.arr badges) =>
      items.all isObjWithId && badges.all isObjWithId &&
      dupFree (entryIds items) && dupFree (entryIds badges)
    | _, _ => false
  | _ => false

/-! ## Document store state

The filesystem state the handler touches: the live document file
(`Config.ASSETS_JSON`, `none` when absent) and the backup directory, a list
of `(filename, content)` pairs in creation order. -/

structure Store where
  live : Option String
  backups : List (String × String)
  deriving Repr, DecidableEq

/-- Whether a backup-directory filename matches the `assets_*.json` glob. -/
def isBackupName (n : String) : Bool :=
  strStartsWith n "assets_" && strEndsWith n ".json"

/-- Strict lexicographic comparison of character streams by code point
(Python string `<`). -/
def charsLt : List Char → List Char → Bool
  | [], [] => false
  | [], _ :: _ => true
  | _ :: _, [] => false
  | a :: as, b :: bs =>
    if a.toNat < b.toNat then true
    else if b.toNat < a.toNat then false
    else charsLt as bs

/-- `a <= b` on strings, by code point. -/
def strLe (a b : String) : Bool := !(charsLt b.data a.data)

/-- Insert into a descending-sorted list. -/
def insDesc (x : String) : List String → List String
  | [] => [x]
  | y :: ys => if strLe y x then x :: y :: ys else y :: insDesc x ys

/-- `sorted(names, reverse=True)`. -/
def sortDesc (l : List String) : List String := l.foldr insDesc []

/-- Write a file into the backup directory: overwrite the content if the
name exists, create it otherwise (`shutil.copy` semantics). -/
def setBk (bks : List (String × String)) (name content : String) :
    List (String × String) :=
  if bks.any (fun p => p.1 == name) then
    bks.map (fun p => if p.1 == name then (p.1, content) else p)
  else bks ++ [(name, content)]

/-- Read a file of the backup directory by name. -/
def getBk (bks : List (String × String)) (name : String) : Option String :=
  (bks.find? (fun p => p.1 == name)).map Prod.snd

/-- The filenames of the backup directory that the `assets_*.json` glob
returns. -/
def matchingNames (bks : List (String × String)) : List String :=
  (bks.map Prod.fst).filter isBackupName

namespace JSONHandler

/-- The backup filename for a capture timestamp: `assets_<ts>.json`. -/
def mkBackupName (ts : String) : String := "assets_" ++ ts ++ ".json"

/-- `JSONHandler._create_backup()`.  `ts` models
`datetime.now().strftime('%Y%m%d_%H%M%S')`.  Copies the live file into the
backup directory, then deletes every `assets_*.json` beyond the 50 first in
filename-sort-descending order.  Returns the created backup's name (`none`
when no source file exists) with the new store. -/
def _create_backup (s : Store) (ts : String) : Option String × Store :=
  match s.live with
  | none => (none, s)
  | some content =>
    let name := mkBackupName ts
    let bks1 := setBk s.backups name content
    let keep := (sortDesc (matchingNames bks1)).take 50
    let bks2 := bks1.filter (fun p => !isBackupName p.1 || keep.contains p.1)
    (some name, { s with backups := bks2 })

/-- `JSONHandler.read()`: `parse` models `json.load`, `jsonPathMsg` the
interpolated `self.json_path`. -/
def read (parse : String → Except String Val) (jsonPathMsg : String)
    (live : Option String) : Except String Val :=
  match live with
  | none => .ok (.obj [("items", .arr []), ("gameBadges", .arr [])])
  | some content =>
    match parse content with
    | .ok v => .ok v
    | .error e => .error ("Invalid JSON in " ++ jsonPathMsg ++ ": " ++ e)

/-- A failure injected into one step of `write` (the shallow embedding of
"an exception is raised there"): the backup copy of step 2, or the
serialize/re-parse/replace steps of the locked section. -/
inductive Fault where
  | none
  | backupCopy
  | serialize
  | reparse
  | replace
  deriving Repr, DecidableEq

/-- The underlying exception message of an injected fault inside the `try`
block, `none` when no fault fires there. -/
def Fault.tryCause : Fault → Option String
  | .serialize => some "serialize error"
  | .reparse => some "reparse error"
  | .replace => some "replace error"
  | _ => Option.none

/-- What `write` can raise. -/
inductive WriteErr where
  /-- `ValueError` from `_validate_structure`, propagating unwrapped. -/
  | schemaError (msg : String)
  /-- An exception of `_create_backup` itself (outside the `try`),
  propagating unwrapped. -/
  | rawError (msg : String)
  /-- `Exception(f"Failed to write JSON: {e}")` from the `except` block. -/
  | writeFailed (cause : String)
  /-- `AttributeError`: the `except` block evaluates `backup_path.exists()`
  while `backup_path` is `None`. -/
  | attributeError
  deriving Repr, DecidableEq

/-- Steps 2-6 of `JSONHandler.write`: backup, then the `try` block (lock,
temp-file serialize, re-parse, atomic replace) with its `except` handler. -/
def writeCore (s : Store) (data : Val) (ts : String) (fault : Fault) :
    Except WriteErr Bool × Store :=
  if fault = .backupCopy && s.live.isSome then
    (.error (.rawError "backup copy failed"), s)
  else
    let (backupPath, s1) := _create_backup s ts
    match fault.tryCause with
    | some cause =>
      match backupPath with
      | some p =>
        match getBk s1.backups p with
        | some content =>
          (.error (.writeFailed ("Failed to write JSON: " ++ cause)),
           { s1 with live := some content })
        | none => (.error (.writeFailed ("Failed to write JSON: " ++ cause)), s1)
      | none => (.error .attributeError, s1)
    | none => (.ok true, { s1 with live := some (Val.render data) })

/-- `JSONHandler.write(data, validate)`. -/
def write (s : Store) (data : Val) (validate : Bool) (ts : String)
    (fault : Fault) : Except WriteErr Bool × Store :=
  if validate then
    match validate_structure data with
    | .error e => (.error (.schemaError e), s)
    | .ok () => writeCore s data ts fault
  else writeCore s data ts fault

/-- What `restore_backup` can raise. -/
inductive RestoreErr where
  /-- The explicit `FileNotFoundError(f"Backup {name} not found")`. -/
  | notFound (name : String)
  /-- `FileNotFoundError` out of `shutil.copy`: the named backup was deleted
  by the safety snapshot's retention pruning. -/
  | copySourceMissing
  deriving Repr, DecidableEq

/-- `JSONHandler.restore_backup(backup_name)`: checks existence, snapshots
the current document (`_create_backup`), then copies the named backup over
the live file. -/
def restore_backup (s : Store) (name ts : String) :
    Except RestoreErr Bool × Store :=
  match getBk s.backups name with
  | none => (.error (.notFound name), s)
  | some _ =>
    let s1 := (_create_backup s ts).2
    match getBk s1.backups name with
    | some content => (.ok true, { s1 with live := some content })
    | none => (.error .copySourceMissing, s1)

end JSONHandler

/-! ## Item duplication (`item_routes.duplicate`)

Python aliasing matters here (`item = a.copy()` is a shallow copy), so the
route is modelled over an explicit heap: scalar values live inline, nested
dicts are heap addresses. -/

/-- A Python value as stored in a dict slot: scalars inline, nested
containers by reference. -/
inductive HVal where
  | str (s : String)
  | num (q : Rat)
  | bool (b : Bool)
  | null
  | addr (a : Nat)
  deriving Repr, DecidableEq

/-- The heap: object `a` is the dict at index `a`. -/
abbrev Heap := List (List (String × HVal))

/-- Dereference an address (theorem hypotheses keep addresses in range). -/
def hget (h : Heap) (a : Nat) : List (String × HVal) :=
  (h[a]?).getD []

/-- Overwrite the object at an address. -/
def hset (h : Heap) (a : Nat) (o : List (String × HVal)) : Heap :=
  List.set h a o

/-- Dict lookup on a heap object. -/
def ogetH (o : List (String × HVal)) (k : String) : Option HVal :=
  (o.find? (fun p => p.1 == k)).map Prod.snd

/-- Dict assignment `o[k] = v`: replace in place or append. -/
def osetH (o : List (String × HVal)) (k : String) (v : HVal) :
    List (String × HVal) :=
  if o.any (fun p => p.1 == k) then
    o.map (fun p => if p.1 == k then (p.1, v) else p)
  else o ++ [(k, v)]

/-- `o.get(k, '')` followed by string formatting, for the fields the route
reads as strings. -/
def getStr (o : List (String × HVal)) (k : String) : String :=
  match ogetH o k with
  | some (.str s) => s
  | _ => ""

/-- Python truthiness of a dict slot (`if item.get('badge'):`): an absent
key or `None` is falsy, a referenced dict is truthy iff nonempty. -/
def truthy (h : Heap) : Option HVal → Bool
  | some (.addr b) => !(hget h b).isEmpty
  | some (.str s) => !(s == "")
  | some (.num q) => !(q == 0)
  | some (.bool b) => b
  | some .null => false
  | Option.none => false

/-- Decimal digit to character, as Python's `str(int)` prints it. -/
def digitToChar : Nat → Char
  | 0 => '0'
  | 1 => '1'
  | 2 => '2'
  | 3 => '3'
  | 4 => '4'
  | 5 => '5'
  | 6 => '6'
  | 7 => '7'
  | 8 => '8'
  | _ => '9'

/-- Character back to decimal digit. -/
def charToDigit (c : Char) : Nat :=
  if c = '0' then 0 else if c = '1' then 1 else if c = '2' then 2
  else if c = '3' then 3 else if c = '4' then 4 else if c = '5' then 5
  else if c = '6' then 6 else if c = '7' then 7 else if c = '8' then 8 else 9

/-- Least-significant-first decimal digits of `n`, with explicit fuel so the
recursion is structural. -/
def toDecAux : Nat → Nat → List Char
  | 0, _ => []
  | _ + 1, 0 => []
  | fuel + 1, n => digitToChar (n % 10) :: toDecAux fuel (n / 10)

/-- Python's `str(n)` for a natural number (the `{counter}` interpolation of
the duplicate route's f-string). -/
def natToDec (n : Nat) : String :=
  if n = 0 then "0" else String.mk (toDecAux n n).reverse

/-- Value of a least-significant-first digit-character list. -/
def decodeLSB : List Char → Nat
  | [] => 0
  | c :: cs => charToDigit c + 10 * decodeLSB cs

theorem charToDigit_digitToChar : ∀ d : Nat, d < 10 → charToDigit (digitToChar d) = d := by
  decide

theorem decodeLSB_toDecAux : ∀ fuel n : Nat, n ≤ fuel → decodeLSB (toDecAux fuel n) = n := by
  intro fuel
  induction fuel with
  | zero => intro n h; interval_cases n; rfl
  | succ fuel ih =>
    intro n h
    match n with
    | 0 => rfl
    | m + 1 =>
      show charToDigit (digitToChar ((m + 1) % 10)) + 10 * decodeLSB (toDecAux fuel ((m + 1) / 10)) = m + 1
      rw [charToDigit_digitToChar _ (Nat.mod_lt _ (by norm_num)),
          ih ((m + 1) / 10) (by omega)]
      omega

theorem natToDec_injective : Function.Injective natToDec := by
  intro m n h
  unfold natToDec at h
  by_cases hm : m = 0 <;> by_cases hn : n = 0 <;> simp [hm, hn] at h ⊢
  · -- m = 0, n ≠ 0 : "0" = printed n forces n = 0
    exfalso
    have hd : ("0" : String).data = ((toDecAux n n).reverse : List Char) := congrArg String.data h
    have : decodeLSB (toDecAux n n) = n := decodeLSB_toDecAux n n (Nat.le_refl n)
    have hrev : toDecAux n n = ['0'] := by
      have : (toDecAux n n).reverse = ['0'] := hd.symm
      simpa using congrArg List.reverse this
    rw [hrev] at this
    simp [decodeLSB, charToDigit] at this
    omega
  · exfalso
    have hd : ((toDecAux m m).reverse : List Char) = ("0" : String).data := congrArg String.data h
    have : decodeLSB (toDecAux m m) = m := decodeLSB_toDecAux m m (Nat.le_refl m)
    have hrev : toDecAux m m = ['0'] := by
      simpa using congrArg List.reverse hd
    rw [hrev] at this
    simp [decodeLSB, charToDigit] at this
    omega
  · have hd := congrArg String.data h
    simp only [String.data] at hd
    have : toDecAux m m = toDecAux n n := by
      have := congrArg List.reverse hd
      simpa using this
    calc m = decodeLSB (toDecAux m m) := (decodeLSB_toDecAux m m (Nat.le_refl m)).symm
      _ = decodeLSB (toDecAux n n) := by rw [this]
      _ = n := decodeLSB_toDecAux n n (Nat.le_refl n)

/-- `f"{base_id}-copy-{counter}"`. -/
def copyCandidate (base : String) (n : Nat) : String :=
  base ++ "-copy-" ++ natToDec n

theorem copyCandidate_injective (base : String) :
    Function.Injective (copyCandidate base) := by
  intro m n h
  unfold copyCandidate at h
  have hd := congrArg String.data h
  have expand : ∀ s t : String, (s ++ t).data = s.data ++ t.data := by
    intro s t
    cases s
    cases t
    rfl
  rw [expand, expand, expand, expand, List.append_assoc, List.append_assoc] at hd
  have hdata := List.append_cancel_left (List.append_cancel_left hd)
  have strExt : ∀ s t : String, s.data = t.data → s = t := by
    intro s t hst
    cases s
    cases t
    exact congrArg String.mk hst
  exact natToDec_injective (strExt _ _ hdata)

theorem exists_fresh (ids : List String) (base : String) :
    ∃ k : Nat, copyCandidate base (k + 1) ∉ ids := by
  by_contra hall
  push_neg at hall
  have hinj : Function.Injective (fun k : Fin (ids.length + 1) => copyCandidate base (k.1 + 1)) := by
    intro a b hab
    have := copyCandidate_injective base hab
    exact Fin.ext (by omega)
  have hsub : (Finset.univ.image (fun k : Fin (ids.length + 1) => copyCandidate base (k.1 + 1)))
      ⊆ ids.toFinset := by
    intro x hx
    simp only [Finset.mem_image] at hx
    obtain ⟨k, _, rfl⟩ := hx
    exact List.mem_toFinset.mpr (hall k.1)
  have h1 : ids.length + 1 ≤ ids.toFinset.card := by
    calc ids.length + 1
        = (Finset.univ : Finset (Fin (ids.length + 1))).card := by simp
      _ = (Finset.univ.image (fun k : Fin (ids.length + 1) => copyCandidate base (k.1 + 1))).card :=
          (Finset.card_image_of_injective _ hinj).symm
      _ ≤ ids.toFinset.card := Finset.card_le_card hsub
  have h2 : ids.toFinset.card ≤ ids.length := ids.toFinset_card_le
  omega

/-- The id-generation loop of the duplicate route: `counter = 1`, increment
while `<base>-copy-<counter>` collides with an existing item id; computed as
the least free counter, which is what the loop returns. -/
def genNewId (ids : List String) (base : String) : String :=
  copyCandidate base (Nat.find (exists_fresh ids base) + 1)

/-- The item ids the collision check compares against
(`any(a['id'] == new_id for a in data['items'])`: only string ids can equal
the candidate string). -/
def itemIds (h : Heap) (items : List Nat) : List String :=
  items.filterMap (fun a =>
    match ogetH (hget h a) "id" with
    | some (.str s) => some s
    | _ => Option.none)

/-- `item_routes.duplicate(item_id)`, the in-memory document mutation: find
the first item with the given id, shallow-copy it, generate the fresh id,
rename, rename the (shared!) embedded badge dict, append.  Returns the new
heap, the new items list and the generated id; `none` when the id is not
found (the route flashes an error) or the badge slot is truthy but not a
dict (Python would raise there). -/
def duplicate (h : Heap) (items : List Nat) (itemId : String) :
    Option (Heap × List Nat × String) :=
  match items.find? (fun a => ogetH (hget h a) "id" == some (.str itemId)) with
  | Option.none => Option.none
  | some a =>
    let orig := hget h a
    let newId := genNewId (itemIds h items) itemId
    let copy1 := osetH orig "id" (.str newId)
    let copy2 := osetH copy1 "name" (.str (getStr orig "name" ++ " (Copy)"))
    let bv := ogetH copy2 "badge"
    if truthy h bv then
      match bv with
      | some (.addr b) =>
        let bo1 := osetH (hget h b) "id" (.str newId)
        let bo2 := osetH bo1 "name" (.str (getStr bo1 "name" ++ " (Copy)"))
        let h1 := hset h b bo2
        some (h1 ++ [copy2], items ++ [h1.length], newId)
      | _ => Option.none
    else
      some (h ++ [copy2], items ++ [h.length], newId)

/-! ## Theorems -/

/-- The canonical empty document `{items: [], gameBadges: []}`. -/
def emptyDocument : Val := .obj [("items", .arr []), ("gameBadges", .arr [])]

/-- C4: `read()` on an absent document file returns the canonical empty
document without error; on a present file it returns the parse result,
wrapping a parse failure in the `CorruptDocument` error (a `ValueError`
carrying the parse detail).  The match exhausts the behaviours of `read`. -/
theorem C4_read_bootstrap_and_corrupt (parse : String → Except String Val)
    (path : String) :
    JSONHandler.read parse path Option.none = .ok emptyDocument ∧
    ∀ content : String,
      JSONHandler.read parse path (some content) =
        (match parse content with
         | .ok v => .ok v
         | .error e => .error ("Invalid JSON in " ++ path ++ ": " ++ e)) := by
  refine ⟨rfl, fun content => ?_⟩
  cases hp : parse content <;> simp [JSONHandler.read, hp]

/-- Evaluation of `_validate_asset_path` on a prefixed path: the existence
check against the resolved location decides the outcome. -/
theorem asset_path_prefixed_eval (fs : List String → Bool) (base : List String)
    (path field : String) (hpre : strStartsWith path "../../" = true) :
    Validator._validate_asset_path fs base (.str path) field =
      (if fs (resolveLogical base path) then []
       else ["'" ++ field ++ "' path does not exist: " ++ path]) := by
  have hne : path ≠ "" := by
    intro he
    rw [he] at hpre
    exact absurd hpre (by decide)
  simp only [Validator._validate_asset_path, if_neg hne, hpre, Bool.not_true,
    Bool.false_eq_true, if_false]

/-- C7: asset-path validation returns no error for the empty string; exactly
one "must be a relative path starting with '../../'" error for a non-empty
string without the prefix; and for a prefixed string, a "path does not
exist" error naming the field exactly when the resolved path does not exist
on the filesystem. -/
theorem C7_asset_path_cases (fs : List String → Bool) (base : List String)
    (path field : String) :
    (path = "" → Validator._validate_asset_path fs base (.str path) field = []) ∧
    (path ≠ "" → strStartsWith path "../../" = false →
      Validator._validate_asset_path fs base (.str path) field =
        ["'" ++ field ++ "' must be a relative path starting with '../../'"]) ∧
    (strStartsWith path "../../" = true →
      Validator._validate_asset_path fs base (.str path) field =
        (if fs (resolveLogical base path) then []
         else ["'" ++ field ++ "' path does not exist: " ++ path])) := by
  refine ⟨?_, ?_, fun h => asset_path_prefixed_eval fs base path field h⟩
  · intro h
    simp [Validator._validate_asset_path, h]
  · intro h1 h2
    simp [Validator._validate_asset_path, h1, h2]

/-- C7 witness: the two concrete checks of the spec's asset-path gate — a
prefixed path to an absent file yields the "does not exist" error naming the
field, and the empty string yields no error. -/
theorem C7_asset_path_cases_witness :
    Validator._validate_asset_path (fun _ => false) ["root"]
        (.str "../../assets/icons/shadows/missing.svg") "icon.shadow" =
      ["'icon.shadow' path does not exist: ../../assets/icons/shadows/missing.svg"] ∧
    Validator._validate_asset_path (fun _ => false) ["root"] (.str "") "icon.shadow" = [] := by
  constructor
  · rw [(C7_asset_path_cases (fun _ => false) ["root"]
        "../../assets/icons/shadows/missing.svg" "icon.shadow").2.2 (by decide)]
    decide
  · exact (C7_asset_path_cases (fun _ => false) ["root"] "" "icon.shadow").1 rfl

/-- C3 counterexample: the validator accepts (returns no error for) a
`'../../'`-prefixed asset path whose embedded `..` segments resolve it
outside the project root, as long as the escaped target exists — no
`InvalidPath` rejection happens.  Here the root is `/home/proj` and the path
resolves to `/home/secret.txt`, outside it. -/
theorem C3_counterexample :
    Validator._validate_asset_path
        (fun p => p == ["home", "secret.txt"]) ["home", "proj"]
        (.str "../../../secret.txt") "icon.shadow" = [] ∧
    withinRoot ["home", "proj"]
        (resolveLogical ["home", "proj"] "../../../secret.txt") = false := by
  constructor <;> decide

/-- C3 (amended): path resolution performs no containment check at all — for
every `'../../'`-prefixed asset path, validation accepts it exactly when the
resolved path exists on the filesystem, whether or not that path lies within
the configured project root. -/
theorem C3_amended_no_containment_check (fs : List String → Bool)
    (base : List String) (path field : String)
    (hpre : strStartsWith path "../../" = true) :
    Validator._validate_asset_path fs base (.str path) field = [] ↔
      fs (resolveLogical base path) = true := by
  rw [asset_path_prefixed_eval fs base path field hpre]
  by_cases hfs : fs (resolveLogical base path) <;> simp [hfs]

/-- C3 amended witness: the same root-escaping path, accepted because the
outside-the-root target exists. -/
theorem C3_amended_witness :
    Validator._validate_asset_path
        (fun p => p == ["home", "secret.txt"]) ["home", "proj"]
        (.str "../../../secret.txt") "icon.shadow" = [] :=
  (C3_amended_no_containment_check (fun p => p == ["home", "secret.txt"])
    ["home", "proj"] "../../../secret.txt" "icon.shadow" (by decide)).mpr (by decide)

/-- The id-uniqueness loop succeeds exactly when every entry is an object
with an `id` and the ids are mutually distinct and fresh with respect to the
already-seen ones. -/
theorem checkIdList_ok_iff (la lb : String) :
    ∀ (xs : List Val) (i : Nat) (seen : List Val),
      JSONHandler.checkIdList la lb i seen xs = .ok () ↔
        (xs.all isObjWithId = true ∧ (entryIds xs).Nodup ∧
         ∀ v ∈ entryIds xs, v ∉ seen) := by
  intro xs
  induction xs with
  | nil =>
    intro i seen
    simp [JSONHandler.checkIdList, entryIds]
  | cons x rest ih =>
    intro i seen
    cases x with
    | obj fields =>
      cases hid : oget? fields "id" with
      | none =>
        simp [JSONHandler.checkIdList, hid, isObjWithId, hasKey]
      | some idv =>
        have hids : entryIds (Val.obj fields :: rest) = idv :: entryIds rest := by
          simp [entryIds, hid]
        by_cases hc : seen.contains idv = true
        · have hmem : idv ∈ seen := by
            rw [List.contains_eq_any_beq] at hc
            simp only [List.any_eq_true, beq_iff_eq] at hc
            obtain ⟨y, hy, rfl⟩ := hc
            exact hy
          simp only [JSONHandler.checkIdList, hid, hc, if_true, hids]
          constructor
          · intro h
            exact absurd h (by simp)
          · rintro ⟨-, -, hfresh⟩
            exact absurd (hfresh idv (by simp)) (by simp [hmem])
        · have hmem : idv ∉ seen := by
            intro hm
            exact hc (by
              rw [List.contains_eq_any_beq]
              simp only [List.any_eq_true, beq_iff_eq]
              exact ⟨idv, hm, rfl⟩)
          have hstep : JSONHandler.checkIdList la lb i seen (Val.obj fields :: rest) =
              JSONHandler.checkIdList la lb (i + 1) (seen ++ [idv]) rest := by
            simp only [JSONHandler.checkIdList, hid]
            rw [if_neg hc]
          rw [hstep, ih (i + 1) (seen ++ [idv]), hids]
          constructor
          · rintro ⟨hall, hnd, hfresh⟩
            refine ⟨?_, ?_, ?_⟩
            · simp [List.all_cons, isObjWithId, hasKey, hid, hall]
            · rw [List.nodup_cons]
              refine ⟨fun hin => ?_, hnd⟩
              exact hfresh idv hin (List.mem_append.mpr (Or.inr (List.mem_singleton.mpr rfl)))
            · intro v hv
              rcases List.mem_cons.mp hv with rfl | hv'
              · exact hmem
              · intro hs
                exact hfresh v hv' (List.mem_append.mpr (Or.inl hs))
          · rintro ⟨hall, hnd, hfresh⟩
            rcases List.nodup_cons.mp hnd with ⟨hni, hnd'⟩
            refine ⟨?_, hnd', fun v hv => ?_⟩
            · simp only [List.all_cons, Bool.and_eq_true] at hall
              exact hall.2
            · intro hs
              rcases List.mem_append.mp hs with hs' | hs'
              · exact hfresh v (List.mem_cons_of_mem _ hv) hs'
              · have hveq : v = idv := List.mem_singleton.mp hs'
                subst hveq
                exact hni hv
    | str s => simp [JSONHandler.checkIdList, isObjWithId]
    | num q => simp [JSONHandler.checkIdList, isObjWithId]
    | bool b => simp [JSONHandler.checkIdList, isObjWithId]
    | null => simp [JSONHandler.checkIdList, isObjWithId]
    | arr ys => simp [JSONHandler.checkIdList, isObjWithId]

/-- `dupFree` is exactly `Nodup`. -/
theorem dupFree_eq_nodup (l : List Val) : dupFree l = true ↔ l.Nodup := by
  induction l with
  | nil => simp [dupFree]
  | cons x xs ih =>
    simp only [dupFree, Bool.and_eq_true, Bool.not_eq_true', List.nodup_cons, ih]
    constructor
    · rintro ⟨hc, hnd⟩
      refine ⟨?_, hnd⟩
      intro hm
      rw [List.contains_eq_any_beq] at hc
      simp only [List.any_eq_false, beq_iff_eq] at hc
      exact hc x hm rfl
    · rintro ⟨hni, hnd⟩
      refine ⟨?_, hnd⟩
      rw [List.contains_eq_any_beq]
      simp only [List.any_eq_false, beq_iff_eq]
      rintro y hy rfl
      exact hni hy

/-- `_validate_structure` accepts exactly the documents satisfying the
spec's structural invariant. -/
theorem validate_structure_ok_iff (data : Val) :
    JSONHandler.validate_structure data = .ok () ↔
      claimedDocInvariant data = true := by
  cases data with
  | obj fields =>
    cases hi : oget? fields "items" with
    | none =>
      simp [JSONHandler.validate_structure, claimedDocInvariant, hasKey, hi]
    | some vi =>
      cases hb : oget? fields "gameBadges" with
      | none =>
        simp [JSONHandler.validate_structure, claimedDocInvariant, hasKey, hi, hb]
      | some vb =>
        cases vi with
        | arr items =>
          cases vb with
          | arr badges =>
            simp only [JSONHandler.validate_structure, claimedDocInvariant,
              hasKey, hi, hb, Option.isSome_some, Bool.not_true,
              Bool.false_eq_true, if_false, Option.getD_some]
            cases hci : JSONHandler.checkIdList "Item" "Duplicate item ID: " 0 [] items with
            | error e =>
              have : ¬(items.all isObjWithId = true ∧ (entryIds items).Nodup) := by
                intro ⟨h1, h2⟩
                have := (checkIdList_ok_iff "Item" "Duplicate item ID: " items 0 []).mpr
                  ⟨h1, h2, by simp⟩
                rw [hci] at this
                exact absurd this (by simp)
              constructor
              · intro h
                exact absurd h (by simp)
              · intro h
                simp only [Bool.and_eq_true, List.all_eq_true] at h
                exact absurd ⟨by simpa using h.1.1.1, (dupFree_eq_nodup _).mp h.1.2⟩ this
            | ok u =>
              obtain ⟨⟩ := u
              have hitems := (checkIdList_ok_iff "Item" "Duplicate item ID: " items 0 []).mp hci
              rw [checkIdList_ok_iff]
              constructor
              · rintro ⟨h1, h2, -⟩
                simp only [Bool.and_eq_true]
                exact ⟨⟨⟨hitems.1, h1⟩, (dupFree_eq_nodup _).mpr hitems.2.1⟩,
                  (dupFree_eq_nodup _).mpr h2⟩
              · intro h
                simp only [Bool.and_eq_true] at h
                exact ⟨h.1.1.2, (dupFree_eq_nodup _).mp h.2, by simp⟩
          | str s => simp [JSONHandler.validate_structure, claimedDocInvariant, hasKey, hi, hb]
          | num q => simp [JSONHandler.validate_structure, claimedDocInvariant, hasKey, hi, hb]
          | bool c => simp [JSONHandler.validate_structure, claimedDocInvariant, hasKey, hi, hb]
          | null => simp [JSONHandler.validate_structure, claimedDocInvariant, hasKey, hi, hb]
          | obj o => simp [JSONHandler.validate_structure, claimedDocInvariant, hasKey, hi, hb]
        | str s => simp [JSONHandler.validate_structure, claimedDocInvariant, hasKey, hi, hb]
        | num q => simp [JSONHandler.validate_structure, claimedDocInvariant, hasKey, hi, hb]
        | bool c => simp [JSONHandler.validate_structure, claimedDocInvariant, hasKey, hi, hb]
        | null => simp [JSONHandler.validate_structure, claimedDocInvariant, hasKey, hi, hb]
        | obj o => simp [JSONHandler.validate_structure, claimedDocInvariant, hasKey, hi, hb]
  | str s => simp [JSONHandler.validate_structure, claimedDocInvariant]
  | num q => simp [JSONHandler.validate_structure, claimedDocInvariant]
  | bool c => simp [JSONHandler.validate_structure, claimedDocInvariant]
  | null => simp [JSONHandler.validate_structure, claimedDocInvariant]
  | arr xs => simp [JSONHandler.validate_structure, claimedDocInvariant]

/-- C2: with `validate=true`, `write` succeeds only for documents satisfying
the structural invariant (root object, `items`/`gameBadges` lists, every
element an object with an `id`, no duplicate id in either collection); a
violating document makes `write` raise `SchemaError` and leave the
filesystem state untouched — in particular no backup is created. -/
theorem C2_write_validates_before_mutation (s : Store) (data : Val)
    (ts : String) (fault : JSONHandler.Fault) :
    ((JSONHandler.write s data true ts fault).1 = .ok true →
      claimedDocInvariant data = true) ∧
    (claimedDocInvariant data = false →
      ∃ msg, JSONHandler.write s data true ts fault =
        (.error (.schemaError msg), s)) := by
  cases hv : JSONHandler.validate_structure data with
  | error e =>
    constructor
    · intro hok
      simp [JSONHandler.write, hv] at hok
    · intro _
      exact ⟨e, by simp [JSONHandler.write, hv]⟩
  | ok u =>
    obtain ⟨⟩ := u
    have hinv : claimedDocInvariant data = true := (validate_structure_ok_iff data).mp hv
    constructor
    · intro _
      exact hinv
    · intro hfalse
      rw [hinv] at hfalse
      exact absurd hfalse (by simp)

/-- The required-fields loop of `validate_item` accumulates exactly the
missing-field messages, in field order. -/
theorem missing_foldl (o : List (String × Val)) :
    ∀ (fields : List String) (init : List String),
      fields.foldl
          (fun es f => if hasKey o f then es else es ++ ["Missing required field: " ++ f])
          init =
        init ++ (fields.filter (fun f => !hasKey o f)).map
          (fun f => "Missing required field: " ++ f) := by
  intro fields
  induction fields with
  | nil => intro init; simp
  | cons f fs ih =>
    intro init
    by_cases hf : hasKey o f = true
    · simp only [List.foldl_cons, hf, if_true, ih, List.filter_cons, Bool.not_true]
      simp
    · have hf' : hasKey o f = false := by simpa using hf
      simp only [List.foldl_cons, hf', Bool.false_eq_true, if_false, ih,
        List.filter_cons, Bool.not_false]
      simp

/-- The `Missing required field:` errors of `validate_badge`, in source
order. -/
def Validator.badgeRequiredErrs (badge : List (String × Val)) : List String :=
  (if hasKey badge "id" then [] else ["Missing required field: id"]) ++
  (if hasKey badge "name" then [] else ["Missing required field: name"]) ++
  (if hasKey badge "description" then [] else ["Missing required field: description"])

/-- C8: `validate_item` (and `validate_badge`) return immediately with only
the missing-field errors when any top-level required field is absent (no
nested check runs), and otherwise accumulate every field-level violation —
the result is the concatenation of all the independent per-field checks,
never a fail-fast prefix. -/
theorem C8_record_validation_shape (fs : List String → Bool)
    (base : List String) (item badge : List (String × Val)) :
    (Validator.missingFieldErrors item Validator.requiredItemFields = [] ↔
      ∀ f ∈ Validator.requiredItemFields, hasKey item f = true) ∧
    (Validator.missingFieldErrors item Validator.requiredItemFields ≠ [] →
      Validator.validate_item fs base item =
        Validator.missingFieldErrors item Validator.requiredItemFields) ∧
    (Validator.missingFieldErrors item Validator.requiredItemFields = [] →
      Validator.validate_item fs base item =
        Validator.nonEmptyStrErrs item "id" ++ Validator.nonEmptyStrErrs item "name" ++
        Validator.locationErrs item ++ Validator.radiusErrs item ++
        Validator.iconErrs fs base item ++ Validator.modelErrs fs base item ++
        Validator.badgeFieldErrs fs base item) ∧
    (Validator.badgeRequiredErrs badge ≠ [] →
      Validator.validate_badge fs base badge = Validator.badgeRequiredErrs badge) ∧
    (Validator.badgeRequiredErrs badge = [] →
      Validator.validate_badge fs base badge =
        Validator.nonEmptyStrErrs badge "id" ++
        (if hasKey badge "icon" then
          Validator._validate_asset_path fs base ((oget? badge "icon").getD .null) "icon"
        else [])) := by
  refine ⟨?_, ?_, ?_, ?_, ?_⟩
  · unfold Validator.missingFieldErrors
    rw [List.map_eq_nil_iff, List.filter_eq_nil_iff]
    constructor
    · intro h f hf
      have := h f hf
      simpa using this
    · intro h f hf
      simp [h f hf]
  · intro hne
    unfold Validator.validate_item
    rw [missing_foldl item Validator.requiredItemFields []]
    rw [List.nil_append]
    have : (Validator.missingFieldErrors item Validator.requiredItemFields).isEmpty = false := by
      cases hm : Validator.missingFieldErrors item Validator.requiredItemFields with
      | nil => exact absurd hm hne
      | cons a l => rfl
    unfold Validator.missingFieldErrors at this ⊢
    simp [this]
  · intro heq
    unfold Validator.validate_item
    rw [missing_foldl item Validator.requiredItemFields []]
    rw [List.nil_append]
    unfold Validator.missingFieldErrors at heq
    rw [heq]
    simp [List.append_assoc]
  · intro hne
    unfold Validator.validate_badge
    have : (Validator.badgeRequiredErrs badge).isEmpty = false := by
      cases hm : Validator.badgeRequiredErrs badge with
      | nil => exact absurd hm hne
      | cons a l => rfl
    unfold Validator.badgeRequiredErrs at this ⊢
    simp only [this, Bool.not_false, if_true]
  · intro heq
    unfold Validator.validate_badge
    unfold Validator.badgeRequiredErrs at heq
    rw [heq]
    simp

/-- In a backup directory where every `name`-keyed file holds `c`, reading
`name` gives `c` or nothing. -/
theorem getBk_all_value (l : List (String × String)) (name c : String)
    (h : ∀ p ∈ l, p.1 = name → p.2 = c) :
    getBk l name = some c ∨ getBk l name = Option.none := by
  induction l with
  | nil => exact Or.inr rfl
  | cons p rest ih =>
    by_cases hp : (p.1 == name) = true
    · left
      have hf : List.find? (fun q => q.1 == name) (p :: rest) = some p := by
        rw [List.find?_cons, hp]
      unfold getBk
      rw [hf]
      have hpc : p.2 = c := h p (List.mem_cons_self p rest) (by simpa using hp)
      simp [hpc]
    · have hp' : (p.1 == name) = false := by simpa using hp
      have hf : List.find? (fun q => q.1 == name) (p :: rest) =
          List.find? (fun q => q.1 == name) rest := by
        rw [List.find?_cons, hp']
      unfold getBk
      rw [hf]
      exact ih (fun q hq => h q (List.mem_cons_of_mem p hq))

/-- Every `name`-keyed entry of `setBk bks name c` holds `c`. -/
theorem setBk_value (bks : List (String × String)) (name c : String) :
    ∀ p ∈ setBk bks name c, p.1 = name → p.2 = c := by
  unfold setBk
  by_cases hany : bks.any (fun p => p.1 == name)
  · rw [if_pos hany]
    intro p hp h1
    obtain ⟨q, hq, hqe⟩ := List.mem_map.mp hp
    by_cases hq1 : q.1 == name
    · rw [if_pos hq1] at hqe
      rw [← hqe]
    · rw [if_neg hq1] at hqe
      subst hqe
      exact absurd (by simp [h1]) hq1
  · rw [if_neg hany]
    intro p hp h1
    rcases List.mem_append.mp hp with hin | hin
    · rw [List.any_eq_true] at hany
      exact absurd ⟨p, hin, by simp [h1]⟩ hany
    · rw [List.mem_singleton] at hin
      rw [hin]

/-- C1 counterexample: two failures inside the claimed "steps 2-6" window
that do not raise `WriteFailed`.  A failure while creating the backup itself
(step 2) propagates unwrapped; a locked-section failure on a store whose
live file does not exist raises `AttributeError` (the `except` handler
evaluates `backup_path.exists()` on `None`). -/
theorem C1_counterexample :
    (JSONHandler.write ⟨some "OLD", []⟩ emptyDocument true "20260101_000000"
        .backupCopy).1 = .error (.rawError "backup copy failed") ∧
    (JSONHandler.write ⟨Option.none, []⟩ emptyDocument true "20260101_000000"
        .serialize).1 = .error .attributeError := by
  constructor <;> decide

/-- A locked-section failure on a store with a live file wraps the cause in
`WriteFailed` and ends with the live file byte-identical to its pre-write
content (restored from the step-2 backup, or untouched). -/
theorem writeCore_locked_failure (bks : List (String × String)) (data : Val)
    (ts content cause : String) (fault : JSONHandler.Fault)
    (hcause : fault.tryCause = some cause) :
    (JSONHandler.writeCore ⟨some content, bks⟩ data ts fault).1 =
      .error (.writeFailed ("Failed to write JSON: " ++ cause)) ∧
    (JSONHandler.writeCore ⟨some content, bks⟩ data ts fault).2.live = some content := by
  have hnb : fault ≠ .backupCopy := by
    rintro rfl
    simp [JSONHandler.Fault.tryCause] at hcause
  have hrestore := getBk_all_value
    ((setBk bks (JSONHandler.mkBackupName ts) content).filter
      (fun p => !isBackupName p.1 ||
        ((sortDesc (matchingNames (setBk bks (JSONHandler.mkBackupName ts) content))).take 50).contains p.1))
    (JSONHandler.mkBackupName ts) content
    (fun p hp => setBk_value bks (JSONHandler.mkBackupName ts) content p (List.mem_of_mem_filter hp))
  simp only [JSONHandler.writeCore, JSONHandler._create_backup, hcause]
  rw [if_neg (by simp [hnb])]
  rcases hrestore with h | h <;> rw [h] <;> exact ⟨rfl, rfl⟩

/-- C1 (amended): when the live document file exists at the start of the
write, any failure in the locked serialize/verify/replace section restores
the live file byte-identically from the step-2 backup (or leaves it
untouched) and raises `WriteFailed` wrapping the underlying cause; a failure
of the backup copy itself (step 2) propagates unwrapped with the whole store
untouched; with no live file, a locked-section failure raises
`AttributeError` and the live file stays absent.  In every case the live
file ends as either its pre-write content or the full new serialization —
never a half-written state. -/
theorem C1_amended_write_failure_recovery (s : Store) (data : Val)
    (ts : String) (fault : JSONHandler.Fault) (v : Bool)
    (content cause : String)
    (hval : v = true → JSONHandler.validate_structure data = .ok ()) :
    (s.live = some content → fault.tryCause = some cause →
      (JSONHandler.write s data v ts fault).1 =
        .error (.writeFailed ("Failed to write JSON: " ++ cause)) ∧
      (JSONHandler.write s data v ts fault).2.live = some content) ∧
    (s.live = some content → fault = .backupCopy →
      JSONHandler.write s data v ts fault =
        (.error (.rawError "backup copy failed"), s)) ∧
    (s.live = Option.none → fault.tryCause = some cause →
      (JSONHandler.write s data v ts fault).1 = .error .attributeError ∧
      (JSONHandler.write s data v ts fault).2.live = Option.none) ∧
    ((JSONHandler.write s data v ts fault).2.live = s.live ∨
     (JSONHandler.write s data v ts fault).2.live = some (Val.render data)) := by
  have hw : JSONHandler.write s data v ts fault = JSONHandler.writeCore s data ts fault := by
    cases v with
    | false => rfl
    | true => simp [JSONHandler.write, hval rfl]
  rw [hw]
  clear hw hval
  obtain ⟨live, bks⟩ := s
  refine ⟨?_, ?_, ?_, ?_⟩
  · rintro rfl hcause
    exact writeCore_locked_failure bks data ts content cause fault hcause
  · rintro rfl rfl
    simp [JSONHandler.writeCore]
  · rintro rfl hcause
    have hnb : fault ≠ JSONHandler.Fault.backupCopy := by
      rintro rfl
      simp [JSONHandler.Fault.tryCause] at hcause
    simp only [JSONHandler.writeCore, JSONHandler._create_backup, hcause]
    rw [if_neg (by simp [hnb])]
    exact ⟨rfl, rfl⟩
  · cases hlive : live with
    | none =>
      cases hftc : fault.tryCause with
      | none =>
        right
        cases fault <;> simp_all [JSONHandler.Fault.tryCause, JSONHandler.writeCore,
          JSONHandler._create_backup]
      | some cause' =>
        left
        have hnb : fault ≠ JSONHandler.Fault.backupCopy := by
          rintro rfl
          simp [JSONHandler.Fault.tryCause] at hftc
        simp only [JSONHandler.writeCore, JSONHandler._create_backup, hftc]
        rw [if_neg (by simp [hnb])]
    | some content' =>
      cases hftc : fault.tryCause with
      | none =>
        cases fault with
        | backupCopy =>
          left
          simp [JSONHandler.writeCore]
        | none =>
          right
          simp only [JSONHandler.writeCore, JSONHandler._create_backup,
            JSONHandler.Fault.tryCause]
          rw [if_neg (by simp)]
        | serialize => simp [JSONHandler.Fault.tryCause] at hftc
        | reparse => simp [JSONHandler.Fault.tryCause] at hftc
        | replace => simp [JSONHandler.Fault.tryCause] at hftc
      | some cause' =>
        left
        exact (writeCore_locked_failure bks data ts content' cause' fault hftc).2

/-- C1 amended witness: a serialize-step failure on a store whose live file
holds `"OLD"` raises the wrapped `WriteFailed` and leaves the live file byte
-identical. -/
theorem C1_amended_witness :
    (JSONHandler.write ⟨some "OLD", []⟩ emptyDocument true "20260101_000000"
        .serialize).1 =
      .error (.writeFailed ("Failed to write JSON: " ++ "serialize error")) ∧
    (JSONHandler.write ⟨some "OLD", []⟩ emptyDocument true "20260101_000000"
        .serialize).2.live = some "OLD" :=
  (C1_amended_write_failure_recovery ⟨some "OLD", []⟩ emptyDocument
    "20260101_000000" .serialize true "OLD" "serialize error"
    (fun _ => by decide)).1 rfl rfl

/-- A backup directory holding exactly the 50 retained backups
`assets_20250101_000000.json` … `assets_20250101_000049.json`. -/
def c5Backups : List (String × String) :=
  (List.range 50).map (fun i =>
    ("assets_20250101_0000" ++ (if i < 10 then "0" else "") ++ natToDec i ++ ".json",
     "BK" ++ natToDec i))

/-- A store with a live document and the 50 backups of `c5Backups`. -/
def c5Store : Store := ⟨some "LIVE", c5Backups⟩

/-- C5: restoring the oldest of 50 retained backups.  The name exists before
the call (first conjunct), yet `restore_backup` fails: the safety snapshot's
retention pruning deletes the very backup being restored (the new snapshot
pushes it past the 50-newest cut), so the final copy raises
`FileNotFoundError` and the live document is never overwritten. -/
theorem C5_restore_prunes_restore_source :
    getBk c5Store.backups "assets_20250101_000000.json" = some ("BK" ++ natToDec 0) ∧
    (JSONHandler.restore_backup c5Store "assets_20250101_000000.json"
        "20260101_120000").1 = .error .copySourceMissing ∧
    (JSONHandler.restore_backup c5Store "assets_20250101_000000.json"
        "20260101_120000").2.live = some "LIVE" := by
  refine ⟨by decide, by decide, by decide⟩

/-! ## Backup retention (C6) -/

theorem charsLt_irrefl : ∀ l : List Char, charsLt l l = false := by
  intro l
  induction l with
  | nil => rfl
  | cons c cs ih => simp [charsLt, ih]

theorem ne_of_charsLt {a b : String} (h : charsLt a.data b.data = true) : a ≠ b := by
  rintro rfl
  rw [charsLt_irrefl] at h
  exact Bool.noConfusion h

theorem sortDesc_cons (x : String) (l : List String) :
    sortDesc (x :: l) = insDesc x (sortDesc l) := rfl

theorem sortDesc_append_gt : ∀ (l : List String) (n : String),
    (∀ y ∈ l, charsLt y.data n.data = true) →
    sortDesc (l ++ [n]) = n :: sortDesc l := by
  intro l
  induction l with
  | nil => intro n _; rfl
  | cons x xs ih =>
    intro n h
    have hx : strLe n x = false := by
      unfold strLe
      rw [h x (List.mem_cons_self x xs)]
      rfl
    rw [List.cons_append, sortDesc_cons, ih n (fun y hy => h y (List.mem_cons_of_mem x hy))]
    show insDesc x (n :: sortDesc xs) = n :: insDesc x (sortDesc xs)
    rw [show insDesc x (n :: sortDesc xs) =
        (if strLe n x then x :: n :: sortDesc xs else n :: insDesc x (sortDesc xs)) from rfl,
      hx]
    simp

theorem insDesc_of_all_gt : ∀ (l : List String) (x : String),
    (∀ y ∈ l, charsLt x.data y.data = true) → insDesc x l = l ++ [x] := by
  intro l
  induction l with
  | nil => intro x _; rfl
  | cons y ys ih =>
    intro x h
    have hy : strLe y x = false := by
      unfold strLe
      rw [h y (List.mem_cons_self y ys)]
      rfl
    show (if strLe y x then x :: y :: ys else y :: insDesc x ys) = (y :: ys) ++ [x]
    rw [hy]
    simp only [Bool.false_eq_true, if_false, List.cons_append, List.cons.injEq, true_and]
    exact ih x (fun z hz => h z (List.mem_cons_of_mem y hz))

theorem sortDesc_of_ascending : ∀ l : List String,
    l.Pairwise (fun a b => charsLt a.data b.data = true) → sortDesc l = l.reverse := by
  intro l
  induction l with
  | nil => intro _; rfl
  | cons x xs ih =>
    intro h
    obtain ⟨hhead, htail⟩ := List.pairwise_cons.mp h
    rw [sortDesc_cons, ih htail,
      insDesc_of_all_gt xs.reverse x (fun y hy => hhead y (List.mem_reverse.mp hy)),
      List.reverse_cons]

theorem isPrefixOf_append_self : ∀ (l r : List Char), l.isPrefixOf (l ++ r) = true := by
  intro l r
  induction l with
  | nil => cases r <;> rfl
  | cons c cs ih =>
    show (c == c && cs.isPrefixOf (cs ++ r)) = true
    simp [ih]

theorem isBackupName_mkBackupName (t : String) :
    isBackupName (JSONHandler.mkBackupName t) = true := by
  obtain ⟨td⟩ := t
  unfold isBackupName JSONHandler.mkBackupName strStartsWith strEndsWith
  rw [Bool.and_eq_true]
  constructor
  · show "assets_".data.isPrefixOf (("assets_".data ++ td) ++ ".json".data) = true
    rw [List.append_assoc]
    exact isPrefixOf_append_self _ _
  · show ".json".data.isSuffixOf (("assets_".data ++ td) ++ ".json".data) = true
    unfold List.isSuffixOf
    rw [List.reverse_append]
    exact isPrefixOf_append_self _ _

/-- One `_create_backup` invocation on a well-formed backup directory (all
names matching the glob, listed oldest-to-newest, all older than the new
timestamp): the document is copied under `assets_<ts>.json` and everything
but the 49 newest old backups plus the new one is deleted. -/
theorem create_backup_step (c t : String) (L : List String)
    (hasc : L.Pairwise (fun a b => charsLt a.data b.data = true))
    (hlt : ∀ y ∈ L, charsLt y.data (JSONHandler.mkBackupName t).data = true)
    (hbk : ∀ y ∈ L, isBackupName y = true) :
    JSONHandler._create_backup ⟨some c, L.map (fun m => (m, c))⟩ t =
      (some (JSONHandler.mkBackupName t),
       ⟨some c, (L.drop (L.length - 49) ++ [JSONHandler.mkBackupName t]).map
          (fun m => (m, c))⟩) := by
  have hnodup : L.Nodup := List.Pairwise.imp (fun h => ne_of_charsLt h) hasc
  have hfresh : (L.map (fun m => (m, c))).any
      (fun p => p.1 == JSONHandler.mkBackupName t) = false := by
    rw [List.any_eq_false]
    intro p hp
    obtain ⟨y, hy, rfl⟩ := List.mem_map.mp hp
    simp only [beq_iff_eq]
    exact ne_of_charsLt (hlt y hy)
  have hsetBk : setBk (L.map (fun m => (m, c))) (JSONHandler.mkBackupName t) c =
      (L ++ [JSONHandler.mkBackupName t]).map (fun m => (m, c)) := by
    unfold setBk
    rw [hfresh]
    simp
  have hmatch : matchingNames ((L ++ [JSONHandler.mkBackupName t]).map (fun m => (m, c))) =
      L ++ [JSONHandler.mkBackupName t] := by
    unfold matchingNames
    rw [List.map_map]
    have hid : (Prod.fst ∘ fun m : String => (m, c)) = id := rfl
    rw [hid, List.map_id, List.filter_eq_self]
    intro y hy
    rcases List.mem_append.mp hy with h | h
    · exact hbk y h
    · rw [List.mem_singleton.mp h]
      exact isBackupName_mkBackupName t
  have hkeep : (sortDesc (L ++ [JSONHandler.mkBackupName t])).take 50 =
      JSONHandler.mkBackupName t :: (L.drop (L.length - 49)).reverse := by
    rw [sortDesc_append_gt L _ hlt, sortDesc_of_ascending L hasc]
    rw [show ((JSONHandler.mkBackupName t :: L.reverse).take 50 =
        JSONHandler.mkBackupName t :: L.reverse.take 49) from rfl]
    rw [List.take_reverse]
  have hfilter : ((L ++ [JSONHandler.mkBackupName t]).map (fun m => (m, c))).filter
      (fun p => !isBackupName p.1 ||
        (JSONHandler.mkBackupName t :: (L.drop (L.length - 49)).reverse).contains p.1) =
      (L.drop (L.length - 49) ++ [JSONHandler.mkBackupName t]).map (fun m => (m, c)) := by
    rw [List.filter_map]
    congr 1
    have hpointwise : ∀ y ∈ L ++ [JSONHandler.mkBackupName t],
        ((fun p : String × String => !isBackupName p.1 ||
          (JSONHandler.mkBackupName t :: (L.drop (L.length - 49)).reverse).contains p.1) ∘
          (fun m => (m, c))) y =
        (fun y => (JSONHandler.mkBackupName t ::
          (L.drop (L.length - 49)).reverse).contains y) y := by
      intro y hy
      have hbky : isBackupName y = true := by
        rcases List.mem_append.mp hy with h | h
        · exact hbk y h
        · rw [List.mem_singleton.mp h]
          exact isBackupName_mkBackupName t
      show (!isBackupName y || _) = _
      rw [hbky]
      simp
    rw [List.filter_congr hpointwise, List.filter_append]
    have hsingle : [JSONHandler.mkBackupName t].filter
        (fun y => (JSONHandler.mkBackupName t ::
          (L.drop (L.length - 49)).reverse).contains y) =
        [JSONHandler.mkBackupName t] := by
      rw [List.filter_eq_self]
      intro a ha
      rw [List.mem_singleton.mp ha]
      exact List.elem_iff.mpr (List.mem_cons_self _ _)
    have hLfilter : ∀ K : List String,
        (∀ a ∈ L, (a ∈ K ↔ a ∈ L.drop (L.length - 49))) →
        L.filter (fun y => K.contains y) = L.drop (L.length - 49) := by
      intro K hKmem
      conv_lhs => rw [← List.take_append_drop (L.length - 49) L]
      rw [List.filter_append]
      have hA : (L.take (L.length - 49)).filter (fun y => K.contains y) = [] := by
        rw [List.filter_eq_nil_iff]
        intro a ha
        have haL : a ∈ L := List.take_subset _ _ ha
        intro hcont
        have haB : a ∈ L.drop (L.length - 49) :=
          (hKmem a haL).mp (List.elem_iff.mp hcont)
        have hnd2 : (L.take (L.length - 49) ++ L.drop (L.length - 49)).Nodup := by
          rw [List.take_append_drop]
          exact hnodup
        exact (List.nodup_append.mp hnd2).2.2 ha haB
      have hBf : (L.drop (L.length - 49)).filter (fun y => K.contains y) =
          L.drop (L.length - 49) := by
        rw [List.filter_eq_self]
        intro a ha
        exact List.elem_iff.mpr
          ((hKmem a (List.drop_subset _ _ ha)).mpr ha)
      rw [hA, hBf, List.nil_append]
    rw [hsingle, hLfilter]
    intro a haL
    constructor
    · intro hmem
      rcases List.mem_cons.mp hmem with heq | hmm2
      · exact absurd heq (ne_of_charsLt (hlt a haL))
      · exact List.mem_reverse.mp hmm2
    · intro hmem
      exact List.mem_cons_of_mem _ (List.mem_reverse.mpr hmem)
  simp only [JSONHandler._create_backup]
  rw [hsetBk, hmatch, hkeep, hfilter]

/-- Folding `_create_backup` over a chronological run of timestamps: only
the 50 newest backup files remain, each holding the document. -/
theorem create_backup_fold (c : String) : ∀ (tss : List String) (L : List String),
    L.Pairwise (fun a b => charsLt a.data b.data = true) →
    (∀ y ∈ L, ∀ t ∈ tss, charsLt y.data (JSONHandler.mkBackupName t).data = true) →
    (tss.map JSONHandler.mkBackupName).Pairwise (fun a b => charsLt a.data b.data = true) →
    (∀ y ∈ L, isBackupName y = true) →
    L.length ≤ 50 →
    tss.foldl (fun st t => (JSONHandler._create_backup st t).2)
        ⟨some c, L.map (fun m => (m, c))⟩ =
      ⟨some c, ((L ++ tss.map JSONHandler.mkBackupName).drop
        ((L.length + tss.length) - 50)).map (fun m => (m, c))⟩ := by
  intro tss
  induction tss with
  | nil =>
    intro L hasc hlt hinc hbk hlen
    simp only [List.foldl_nil, List.map_nil, List.append_nil, List.length_nil,
      Nat.add_zero]
    rw [Nat.sub_eq_zero_of_le hlen, List.drop_zero]
  | cons t ts ih =>
    intro L hasc hlt hinc hbk hlen
    have hltt : ∀ y ∈ L, charsLt y.data (JSONHandler.mkBackupName t).data = true :=
      fun y hy => hlt y hy t (List.mem_cons_self t ts)
    rw [List.foldl_cons, create_backup_step c t L hasc hltt hbk]
    have hBsub : L.drop (L.length - 49) ⊆ L := List.drop_subset _ L
    have hincM := List.map_cons JSONHandler.mkBackupName t ts ▸ hinc
    obtain ⟨hheadM, htailM⟩ := List.pairwise_cons.mp hincM
    have h1 : (L.drop (L.length - 49) ++ [JSONHandler.mkBackupName t]).Pairwise
        (fun a b => charsLt a.data b.data = true) := by
      rw [List.pairwise_append]
      refine ⟨List.Pairwise.sublist (List.drop_sublist _ _) hasc,
        List.pairwise_singleton _ _, ?_⟩
      intro x hx y hy
      rw [List.mem_singleton.mp hy]
      exact hltt x (hBsub hx)
    have h2 : ∀ y ∈ L.drop (L.length - 49) ++ [JSONHandler.mkBackupName t],
        ∀ t' ∈ ts, charsLt y.data (JSONHandler.mkBackupName t').data = true := by
      intro y hy t' ht'
      rcases List.mem_append.mp hy with h | h
      · exact hlt y (hBsub h) t' (List.mem_cons_of_mem t ht')
      · rw [List.mem_singleton.mp h]
        exact hheadM _ (List.mem_map_of_mem JSONHandler.mkBackupName ht')
    have h4 : ∀ y ∈ L.drop (L.length - 49) ++ [JSONHandler.mkBackupName t],
        isBackupName y = true := by
      intro y hy
      rcases List.mem_append.mp hy with h | h
      · exact hbk y (hBsub h)
      · rw [List.mem_singleton.mp h]
        exact isBackupName_mkBackupName t
    have h5 : (L.drop (L.length - 49) ++ [JSONHandler.mkBackupName t]).length ≤ 50 := by
      rw [List.length_append, List.length_drop]
      simp only [List.length_singleton]
      omega
    show List.foldl (fun st t => (JSONHandler._create_backup st t).2)
        (⟨some c, ((L.drop (L.length - 49) ++ [JSONHandler.mkBackupName t]).map
          (fun m => (m, c)))⟩ : Store) ts = _
    rw [ih (L.drop (L.length - 49) ++ [JSONHandler.mkBackupName t]) h1 h2 htailM h4 h5]
    congr 1
    congr 1
    rw [List.map_cons, List.length_cons]
    rw [show L ++ JSONHandler.mkBackupName t :: ts.map JSONHandler.mkBackupName =
        L.take (L.length - 49) ++ (L.drop (L.length - 49) ++
          JSONHandler.mkBackupName t :: ts.map JSONHandler.mkBackupName) from by
      rw [← List.append_assoc, List.take_append_drop]]
    rw [show (L.drop (L.length - 49) ++ [JSONHandler.mkBackupName t]) ++
        ts.map JSONHandler.mkBackupName =
        L.drop (L.length - 49) ++
          JSONHandler.mkBackupName t :: ts.map JSONHandler.mkBackupName from by
      rw [List.append_assoc]
      rfl]
    have hidx : L.length + (ts.length + 1) - 50 =
        (L.take (L.length - 49)).length +
          ((L.drop (L.length - 49) ++ [JSONHandler.mkBackupName t]).length + ts.length - 50) := by
      rw [List.length_take, List.length_append, List.length_drop]
      simp only [List.length_singleton]
      omega
    rw [hidx, List.drop_append]

/-- C6: starting from an empty backup directory with a live document, after
`N > 50` chronological `_create_backup` invocations exactly 50 backups
remain — the 50 most recent by filename sort, each a copy of the document
under the `assets_<ts>.json` pattern. -/
theorem C6_backup_retention (c : String) (tss : List String)
    (hinc : (tss.map JSONHandler.mkBackupName).Pairwise
      (fun a b => charsLt a.data b.data = true))
    (hlen : 50 < tss.length) :
    (tss.foldl (fun st t => (JSONHandler._create_backup st t).2)
        ⟨some c, []⟩).backups =
      ((tss.map JSONHandler.mkBackupName).drop (tss.length - 50)).map
        (fun m => (m, c)) ∧
    matchingNames (tss.foldl (fun st t => (JSONHandler._create_backup st t).2)
        ⟨some c, []⟩).backups =
      (tss.map JSONHandler.mkBackupName).drop (tss.length - 50) ∧
    (matchingNames (tss.foldl (fun st t => (JSONHandler._create_backup st t).2)
        ⟨some c, []⟩).backups).length = 50 := by
  have hfold := create_backup_fold c tss [] List.Pairwise.nil (by simp) hinc (by simp) (by simp)
  simp only [List.nil_append, List.length_nil, Nat.zero_add] at hfold
  rw [show (⟨some c, []⟩ : Store) = ⟨some c, ([] : List String).map (fun m => (m, c))⟩ from rfl,
    hfold]
  refine ⟨rfl, ?_, ?_⟩
  · unfold matchingNames
    rw [List.map_map]
    have hid : (Prod.fst ∘ fun m : String => (m, c)) = id := rfl
    rw [hid, List.map_id, List.filter_eq_self]
    intro y hy
    obtain ⟨t, -, rfl⟩ := List.mem_map.mp (List.drop_subset _ _ hy)
    exact isBackupName_mkBackupName t
  · unfold matchingNames
    rw [List.map_map]
    have hid : (Prod.fst ∘ fun m : String => (m, c)) = id := rfl
    rw [hid, List.map_id, List.filter_eq_self.mpr]
    · rw [List.length_drop, List.length_map]
      omega
    · intro y hy
      obtain ⟨t, -, rfl⟩ := List.mem_map.mp (List.drop_subset _ _ hy)
      exact isBackupName_mkBackupName t

/-- 51 strictly increasing capture timestamps. -/
def c6Tss : List String :=
  (List.range 51).map
    (fun i => "20250101_0000" ++ (if i < 10 then "0" else "") ++ natToDec i)

/-- C6 witness: 51 chronological backups leave exactly the 50 newest
`assets_*.json` files, each holding the document. -/
theorem C6_backup_retention_witness :
    (c6Tss.foldl (fun st t => (JSONHandler._create_backup st t).2)
        ⟨some "DOC", []⟩).backups =
      ((c6Tss.map JSONHandler.mkBackupName).drop (c6Tss.length - 50)).map
        (fun m => (m, "DOC")) ∧
    matchingNames (c6Tss.foldl (fun st t => (JSONHandler._create_backup st t).2)
        ⟨some "DOC", []⟩).backups =
      (c6Tss.map JSONHandler.mkBackupName).drop (c6Tss.length - 50) ∧
    (matchingNames (c6Tss.foldl (fun st t => (JSONHandler._create_backup st t).2)
        ⟨some "DOC", []⟩).backups).length = 50 :=
  C6_backup_retention "DOC" c6Tss (by decide) (by decide)

/-! ## Item duplication (C9, C10) -/

theorem ogetH_osetH_self : ∀ (o : List (String × HVal)) (k : String) (v : HVal),
    ogetH (osetH o k v) k = some v := by
  intro o k v
  unfold osetH
  by_cases hany : o.any (fun p => p.1 == k) = true
  · rw [if_pos hany]
    have key : ∀ l : List (String × HVal), l.any (fun p => p.1 == k) = true →
        ogetH (l.map (fun p => if p.1 == k then (p.1, v) else p)) k = some v := by
      intro l
      induction l with
      | nil => intro hl; simp at hl
      | cons p rest ih =>
        intro hl
        rw [List.map_cons]
        by_cases hp : (p.1 == k) = true
        · rw [if_pos hp]
          unfold ogetH
          rw [List.find?_cons, hp]
          rfl
        · have hp' : (p.1 == k) = false := by simpa using hp
          rw [if_neg (by simp [hp'])]
          unfold ogetH
          rw [List.find?_cons, hp']
          apply ih
          rw [List.any_cons, hp'] at hl
          simpa using hl
    exact key o hany
  · rw [if_neg hany]
    have hall : ∀ p ∈ o, (p.1 == k) = false := by
      intro p hp
      rw [List.any_eq_true] at hany
      push_neg at hany
      simpa using hany p hp
    have key : ∀ l : List (String × HVal), (∀ p ∈ l, (p.1 == k) = false) →
        ogetH (l ++ [(k, v)]) k = some v := by
      intro l
      induction l with
      | nil =>
        intro _
        unfold ogetH
        rw [List.nil_append, List.find?_cons, show ((k, v).1 == k) = true by simp]
        rfl
      | cons p rest ih =>
        intro hl
        unfold ogetH
        rw [List.cons_append, List.find?_cons, hl p (List.mem_cons_self p rest)]
        exact ih (fun q hq => hl q (List.mem_cons_of_mem p hq))
    exact key o hall

theorem ogetH_osetH_ne : ∀ (o : List (String × HVal)) (k k' : String) (v : HVal),
    k' ≠ k → ogetH (osetH o k v) k' = ogetH o k' := by
  intro o k k' v hne
  unfold osetH
  by_cases hany : o.any (fun p => p.1 == k) = true
  · rw [if_pos hany]
    clear hany
    induction o with
    | nil => rfl
    | cons p rest ih =>
      rw [List.map_cons]
      by_cases hp' : (p.1 == k') = true
      · have hpk' : p.1 = k' := by simpa using hp'
        have hpk : (p.1 == k) = false := by
          simp only [beq_eq_false_iff_ne, ne_eq, hpk']
          exact fun hc => hne hc
        rw [if_neg (by simp [hpk])]
        unfold ogetH
        rw [List.find?_cons, List.find?_cons, hp']
      · have hp'' : (p.1 == k') = false := by simpa using hp'
        by_cases hpk : (p.1 == k) = true
        · rw [if_pos hpk]
          unfold ogetH
          rw [List.find?_cons, List.find?_cons, hp'']
          exact ih
        · rw [if_neg hpk]
          unfold ogetH
          rw [List.find?_cons, List.find?_cons, hp'']
          exact ih
  · rw [if_neg hany]
    unfold ogetH
    rw [List.find?_append]
    have hsingle : List.find? (fun q => q.1 == k') [(k, v)] = Option.none := by
      rw [List.find?_cons]
      have hkk : ((k, v).1 == k') = false := by
        simp only [beq_eq_false_iff_ne, ne_eq]
        exact fun hc => hne hc.symm
      rw [hkk]
      rfl
    rw [hsingle]
    cases List.find? (fun q => q.1 == k') o <;> rfl

theorem hget_concat (h1 : Heap) (o : List (String × HVal)) :
    hget (h1 ++ [o]) h1.length = o := by
  unfold hget
  rw [List.getElem?_concat_length]
  rfl

theorem hget_append_lt (h1 : Heap) (o : List (String × HVal)) (i : Nat)
    (hi : i < h1.length) : hget (h1 ++ [o]) i = hget h1 i := by
  unfold hget
  rw [List.getElem?_append_left hi]

theorem hget_set_self (h : Heap) (b : Nat) (o : List (String × HVal))
    (hb : b < h.length) : hget (hset h b o) b = o := by
  unfold hget hset
  rw [List.getElem?_set_eq_of_lt o hb]
  rfl

theorem hget_set_ne (h : Heap) (b : Nat) (o : List (String × HVal)) (a : Nat)
    (hne : b ≠ a) : hget (hset h b o) a = hget h a := by
  unfold hget hset
  rw [List.getElem?_set_ne hne]

/-- The id-generation loop returns `<base>-copy-<n>` for the least positive
`n` whose candidate collides with no existing id. -/
theorem genNewId_spec (ids : List String) (base : String) :
    ∃ n : Nat, 1 ≤ n ∧ genNewId ids base = copyCandidate base n ∧
      copyCandidate base n ∉ ids ∧
      ∀ m : Nat, 1 ≤ m → m < n → copyCandidate base m ∈ ids := by
  refine ⟨Nat.find (exists_fresh ids base) + 1, by omega, rfl,
    Nat.find_spec (exists_fresh ids base), ?_⟩
  intro m h1 hlt
  have hmin := Nat.find_min (exists_fresh ids base)
    (show m - 1 < Nat.find (exists_fresh ids base) by omega)
  rw [Nat.sub_add_cancel h1] at hmin
  exact not_not.mp hmin

/-- Full evaluation of the duplicate route on a well-formed target item
(first match at `a`, string name, badge slot referencing the nonempty dict
at `b`). -/
theorem duplicate_eval (h : Heap) (items : List Nat) (itemId : String)
    (a b : Nat) (nm bn : String) (bo : List (String × HVal))
    (hfind : items.find? (fun x => ogetH (hget h x) "id" == some (.str itemId)) = some a)
    (hname : ogetH (hget h a) "name" = some (.str nm))
    (hbadge : ogetH (hget h a) "badge" = some (.addr b))
    (hbo : hget h b = bo)
    (hbne : bo ≠ [])
    (hbname : ogetH bo "name" = some (.str bn)) :
    duplicate h items itemId =
      some (hset h b (osetH (osetH bo "id" (.str (genNewId (itemIds h items) itemId)))
              "name" (.str (bn ++ " (Copy)"))) ++
            [osetH (osetH (hget h a) "id" (.str (genNewId (itemIds h items) itemId)))
              "name" (.str (nm ++ " (Copy)"))],
            items ++ [h.length],
            genNewId (itemIds h items) itemId) := by
  have hcopy2badge : ogetH (osetH (osetH (hget h a) "id"
      (.str (genNewId (itemIds h items) itemId))) "name"
      (.str (getStr (hget h a) "name" ++ " (Copy)"))) "badge" = some (.addr b) := by
    rw [ogetH_osetH_ne _ _ _ _ (by decide), ogetH_osetH_ne _ _ _ _ (by decide), hbadge]
  have htruthy : truthy h (some (HVal.addr b)) = true := by
    show (!(hget h b).isEmpty) = true
    rw [hbo]
    cases bo with
    | nil => exact absurd rfl hbne
    | cons x xs => rfl
  have hgetstr1 : getStr (hget h a) "name" = nm := by
    unfold getStr
    rw [hname]
  have hgetstr2 : getStr (osetH bo "id"
      (.str (genNewId (itemIds h items) itemId))) "name" = bn := by
    unfold getStr
    rw [ogetH_osetH_ne _ _ _ _ (by decide), hbname]
  unfold duplicate
  rw [hfind]
  dsimp only
  rw [hcopy2badge, htruthy, if_pos rfl]
  dsimp only
  rw [hbo, hgetstr1, hgetstr2]
  unfold hset
  rw [List.length_set]

/-- C9: duplicating an item whose id exists appends a new record whose id
is `<id>-copy-<n>` for the least positive `n` colliding with no existing
item id, whose name carries the `" (Copy)"` marker, and whose embedded
badge is renamed with the marker too. -/
theorem C9_duplicate_appends_fresh_copy (h : Heap) (items : List Nat)
    (itemId : String) (a b : Nat) (nm bn : String) (bo : List (String × HVal))
    (hfind : items.find? (fun x => ogetH (hget h x) "id" == some (.str itemId)) = some a)
    (hname : ogetH (hget h a) "name" = some (.str nm))
    (hbadge : ogetH (hget h a) "badge" = some (.addr b))
    (hbo : hget h b = bo)
    (hbne : bo ≠ [])
    (hbname : ogetH bo "name" = some (.str bn))
    (hblt : b < h.length) :
    ∃ h' : Heap,
      duplicate h items itemId =
        some (h', items ++ [h.length], genNewId (itemIds h items) itemId) ∧
      ogetH (hget h' h.length) "id" =
        some (.str (genNewId (itemIds h items) itemId)) ∧
      ogetH (hget h' h.length) "name" = some (.str (nm ++ " (Copy)")) ∧
      ogetH (hget h' h.length) "badge" = some (.addr b) ∧
      ogetH (hget h' b) "name" = some (.str (bn ++ " (Copy)")) ∧
      ∃ n : Nat, 1 ≤ n ∧
        genNewId (itemIds h items) itemId = copyCandidate itemId n ∧
        copyCandidate itemId n ∉ itemIds h items ∧
        ∀ m : Nat, 1 ≤ m → m < n → copyCandidate itemId m ∈ itemIds h items := by
  have heval := duplicate_eval h items itemId a b nm bn bo hfind hname hbadge hbo hbne hbname
  set newId := genNewId (itemIds h items) itemId with hni
  set bo2 := osetH (osetH bo "id" (.str newId)) "name" (.str (bn ++ " (Copy)")) with hbo2
  set copy2 := osetH (osetH (hget h a) "id" (.str newId)) "name"
    (.str (nm ++ " (Copy)")) with hcopy2
  have hlen1 : (hset h b bo2).length = h.length := by
    unfold hset
    exact List.length_set h b bo2
  have hnewobj : hget (hset h b bo2 ++ [copy2]) h.length = copy2 := by
    rw [show h.length = (hset h b bo2).length from hlen1.symm, hget_concat]
  have hbobj : hget (hset h b bo2 ++ [copy2]) b = bo2 := by
    rw [hget_append_lt _ _ b (by rw [hlen1]; exact hblt)]
    exact hget_set_self h b bo2 hblt
  refine ⟨hset h b bo2 ++ [copy2], heval, ?_, ?_, ?_, ?_, genNewId_spec (itemIds h items) itemId⟩
  · rw [hnewobj, hcopy2, ogetH_osetH_ne _ _ _ _ (by decide), ogetH_osetH_self]
  · rw [hnewobj, hcopy2, ogetH_osetH_self]
  · rw [hnewobj, hcopy2, ogetH_osetH_ne _ _ _ _ (by decide),
      ogetH_osetH_ne _ _ _ _ (by decide), hbadge]
  · rw [hbobj, hbo2, ogetH_osetH_self]

/-- C10: duplicating an item mutates the original item's embedded badge —
the shallow `dict.copy` shares the badge dict, so after the duplication the
stored original still points at the same badge object, which now carries
the newly generated `<id>-copy-<n>` id and the `" (Copy)"`-suffixed name. -/
theorem C10_duplicate_mutates_original_badge (h : Heap) (items : List Nat)
    (itemId : String) (a b : Nat) (nm bn : String) (bo : List (String × HVal))
    (hfind : items.find? (fun x => ogetH (hget h x) "id" == some (.str itemId)) = some a)
    (hname : ogetH (hget h a) "name" = some (.str nm))
    (hbadge : ogetH (hget h a) "badge" = some (.addr b))
    (hbo : hget h b = bo)
    (hbne : bo ≠ [])
    (hbname : ogetH bo "name" = some (.str bn))
    (hblt : b < h.length)
    (halt : a < h.length)
    (hab : b ≠ a) :
    ∃ h' : Heap,
      duplicate h items itemId =
        some (h', items ++ [h.length], genNewId (itemIds h items) itemId) ∧
      hget h' a = hget h a ∧
      ogetH (hget h' a) "badge" = some (.addr b) ∧
      ogetH (hget h' b) "id" = some (.str (genNewId (itemIds h items) itemId)) ∧
      ogetH (hget h' b) "name" = some (.str (bn ++ " (Copy)")) := by
  have heval := duplicate_eval h items itemId a b nm bn bo hfind hname hbadge hbo hbne hbname
  set newId := genNewId (itemIds h items) itemId with hni
  set bo2 := osetH (osetH bo "id" (.str newId)) "name" (.str (bn ++ " (Copy)")) with hbo2
  set copy2 := osetH (osetH (hget h a) "id" (.str newId)) "name"
    (.str (nm ++ " (Copy)")) with hcopy2
  have hlen1 : (hset h b bo2).length = h.length := by
    unfold hset
    exact List.length_set h b bo2
  have horig : hget (hset h b bo2 ++ [copy2]) a = hget h a := by
    rw [hget_append_lt _ _ a (by rw [hlen1]; exact halt)]
    exact hget_set_ne h b bo2 a hab
  have hbobj : hget (hset h b bo2 ++ [copy2]) b = bo2 := by
    rw [hget_append_lt _ _ b (by rw [hlen1]; exact hblt)]
    exact hget_set_self h b bo2 hblt
  refine ⟨hset h b bo2 ++ [copy2], heval, horig, ?_, ?_, ?_⟩
  · rw [horig, hbadge]
  · rw [hbobj, hbo2, ogetH_osetH_ne _ _ _ _ (by decide), ogetH_osetH_self]
  · rw [hbobj, hbo2, ogetH_osetH_self]

/-- A two-object heap: item `0` (id `"x"`, name `"Fox"`) whose embedded
badge is the shared dict at address `1`. -/
def dupHeap : Heap :=
  [[("id", .str "x"), ("name", .str "Fox"), ("badge", .addr 1)],
   [("id", .str "x-badge"), ("name", .str "Fox Badge")]]

/-- C9 witness: duplicating item `"x"` of `dupHeap`. -/
theorem C9_duplicate_witness :
    ∃ h' : Heap,
      duplicate dupHeap [0] "x" =
        some (h', [0] ++ [dupHeap.length], genNewId (itemIds dupHeap [0]) "x") ∧
      ogetH (hget h' dupHeap.length) "id" =
        some (.str (genNewId (itemIds dupHeap [0]) "x")) ∧
      ogetH (hget h' dupHeap.length) "name" = some (.str ("Fox" ++ " (Copy)")) ∧
      ogetH (hget h' dupHeap.length) "badge" = some (.addr 1) ∧
      ogetH (hget h' 1) "name" = some (.str ("Fox Badge" ++ " (Copy)")) ∧
      ∃ n : Nat, 1 ≤ n ∧
        genNewId (itemIds dupHeap [0]) "x" = copyCandidate "x" n ∧
        copyCandidate "x" n ∉ itemIds dupHeap [0] ∧
        ∀ m : Nat, 1 ≤ m → m < n → copyCandidate "x" m ∈ itemIds dupHeap [0] :=
  C9_duplicate_appends_fresh_copy dupHeap [0] "x" 0 1 "Fox" "Fox Badge"
    [("id", .str "x-badge"), ("name", .str "Fox Badge")]
    (by decide) (by decide) (by decide) (by decide) (by decide) (by decide) (by decide)

/-- C10 witness: after duplicating item `"x"` of `dupHeap`, the original
item's badge dict carries the generated id and the copy-suffixed name. -/
theorem C10_duplicate_witness :
    ∃ h' : Heap,
      duplicate dupHeap [0] "x" =
        some (h', [0] ++ [dupHeap.length], genNewId (itemIds dupHeap [0]) "x") ∧
      hget h' 0 = hget dupHeap 0 ∧
      ogetH (hget h' 0) "badge" = some (.addr 1) ∧
      ogetH (hget h' 1) "id" = some (.str (genNewId (itemIds dupHeap [0]) "x")) ∧
      ogetH (hget h' 1) "name" = some (.str ("Fox Badge" ++ " (Copy)")) :=
  C10_duplicate_mutates_original_badge dupHeap [0] "x" 0 1 "Fox" "Fox Badge"
    [("id", .str "x-badge"), ("name", .str "Fox Badge")]
    (by decide) (by decide) (by decide) (by decide) (by decide) (by decide)
    (by decide) (by decide) (by decide)

end HRP
